import Mathlib

/-!
Shallow embedding of the zapdriver enriching core (`core.go`).

Modelling conventions:
* A Go `map[string]string` guarded by a `sync.RWMutex` is modelled as an
  append-only association store (`Store`) whose lookup returns the most
  recently written binding (last-write-wins), which matches the extensional
  behaviour of map assignment.  The mutexes themselves are dropped: the
  embedding is sequential.
* Pointer identity of `*labels` cells matters for the copy-on-derive and
  temporary-reset behaviour, so label cells live in an explicit heap
  (`Heap`, a list of stores addressed by index) and a `core` holds the two
  cell addresses `permLabels` and `tempLabels`.
* The wrapped `zapcore.Core` backend is abstracted: its `Write` is a
  function parameter, its level predicate a function parameter in `Check`.
* Helper files of the repository (`labels.go` and the stanza builders) are
  not part of the sources at hand; their definitions are modelled from the
  specification and carry a doc comment saying so.
-/

namespace Zapdriver

/-- Association store with last-write-wins lookup; extensional model of a Go
`map[string]string` where insertion is appending a binding. -/
abbrev Store := List (String × String)

/-- Lookup of the most recently written binding for a key. -/
def Store.lget : Store → String → Option String
  | [], _ => none
  | p :: s, k =>
    match Store.lget s k with
    | some v => some v
    | none => if p.1 = k then some p.2 else none

/-- Key-presence test for a store. -/
def Store.hasKey (s : Store) (k : String) : Bool :=
  (s.lget k).isSome

/-- Heap of label stores; each `*labels` cell of the Go program is one index. -/
abbrev Heap := List Store

/-- Allocate a fresh cell holding `s`; returns the new heap and the address. -/
def Heap.alloc (h : Heap) (s : Store) : Heap × Nat :=
  (h ++ [s], h.length)

/-- Dereference a cell (out-of-range reads give the empty store). -/
def Heap.get (h : Heap) (r : Nat) : Store :=
  h.getD r []

/-- Overwrite a cell in place. -/
def Heap.hset (h : Heap) (r : Nat) (s : Store) : Heap :=
  h.set r s

/-- zapcore field types, restricted to the shapes the claims need; `Type`
selects which slot of the flat `zapcore.Field` struct carries the value. -/
inductive FieldType where
  | stringType
  | int64Type
  | objectType
  | otherType
  deriving DecidableEq

/-- The `Interface` slot of a `zapcore.Field`, restricted to the payloads the
stanza builders produce. -/
inductive Iface where
  | nilIface
  | sourceLocation (pc : Nat) (file : String) (line : Nat) (isSynthetic : Bool)
  | serviceContext (name version : String)
  | errorReport (pc : Nat) (file : String) (line : Nat) (isSynthetic : Bool)
  | labelsObj (store : Store)
  deriving DecidableEq

/-- Flat model of `zapcore.Field`: key plus the three value slots. -/
structure Field where
  key : String
  ftype : FieldType
  integer : Int
  str : String
  iface : Iface
  deriving DecidableEq

/-- The logical value a field was supplied with: the `Type` slot selects
which of the flat slots carries it, as in zap's field constructors. -/
inductive FieldValue where
  | strVal (s : String)
  | intVal (n : Int)
  | ifaceVal (i : Iface)
  deriving DecidableEq

/-- The supplied value of a field, decoded through its type tag. -/
def Field.value (f : Field) : FieldValue :=
  match f.ftype with
  | .stringType => .strVal f.str
  | .int64Type => .intVal f.integer
  | _ => .ifaceVal f.iface

/-- Modelled from the spec: the reserved source-location field key of
`source.go` (missing from the sources at hand). -/
def sourceKey : String := "logging.googleapis.com/sourceLocation"

/-- Modelled from the spec: the reserved service-context field key of
`service.go` (missing from the sources at hand). -/
def serviceContextKey : String := "serviceContext"

/-- Modelled from the spec: the reserved error-context field key of
`report.go` (missing from the sources at hand). -/
def contextKey : String := "context"

/-- The label namespace token `labels.` of the field-key convention. -/
def labelsPrefixStr : String := "labels."

/-- Modelled from the spec: the pure source-location stanza builder
`SourceLocation` (missing from the sources at hand), a constructor taking
program counter, file, line and the synthetic flag. -/
def SourceLocation (pc : Nat) (file : String) (line : Nat) (isSynthetic : Bool) : Field :=
  ⟨sourceKey, .objectType, 0, "", .sourceLocation pc file line isSynthetic⟩

/-- Modelled from the spec: the pure service-context stanza builder
`ServiceContext` (missing from the sources at hand). -/
def ServiceContext (name version : String) : Field :=
  ⟨serviceContextKey, .objectType, 0, "", .serviceContext name version⟩

/-- Modelled from the spec: the pure error-report stanza builder
`ErrorReport` (missing from the sources at hand). -/
def ErrorReport (pc : Nat) (file : String) (line : Nat) (isSynthetic : Bool) : Field :=
  ⟨contextKey, .objectType, 0, "", .errorReport pc file line isSynthetic⟩

/-- Modelled from the spec: `labelsField` of `labels.go` (missing from the
sources at hand), the single namespaced aggregate field carrying a label
store. -/
def labelsField (s : Store) : Field :=
  ⟨"labels", .objectType, 0, "", .labelsObj s⟩

/-- Modelled from the spec: `mergeLabelFields` of `labels.go` (missing from
the sources at hand) appends the namespaced labels field carrying the merged
store to the non-label fields. -/
def mergeLabelFields (fields : List Field) (lbls : Store) : List Field :=
  fields ++ [labelsField lbls]

/-- Modelled from the spec: `isLabelField` of `labels.go` (missing from the
sources at hand) is true iff the field's key starts with the reserved
`labels.` prefix (`strings.HasPrefix` on the character sequence). -/
def isLabelField (f : Field) : Bool :=
  labelsPrefixStr.data.isPrefixOf f.key.data

/-- `strings.Replace(key, "labels.", "", 1)` as used on keys that passed
`isLabelField`: the first occurrence of the prefix is the leading one, so it
is dropped. -/
def stripLabelsKey (k : String) : String :=
  if labelsPrefixStr.data.isPrefixOf k.data then ⟨k.data.drop labelsPrefixStr.data.length⟩
  else k

/-- `driverConfig` (`core.go` lines 12-22). -/
structure DriverConfig where
  reportAllErrors : Bool
  serviceName : String
  serviceVersion : String
  deriving DecidableEq

/-- `core` (`core.go` lines 26-47): the wrapped backend handle is abstracted
away; the two label cells are heap addresses. -/
structure Core where
  permLabels : Nat
  tempLabels : Nat
  config : DriverConfig
  deriving DecidableEq

/-- Well-formed decorator state: both cells are allocated and distinct. -/
def Core.Wf (c : Core) (h : Heap) : Prop :=
  c.permLabels < h.length ∧ c.tempLabels < h.length ∧ c.permLabels ≠ c.tempLabels

instance (c : Core) (h : Heap) : Decidable (c.Wf h) := by
  unfold Core.Wf
  infer_instance

/-- `zapcore.EntryCaller`, restricted to the consulted fields. -/
structure EntryCaller where
  defined : Bool
  pc : Nat
  file : String
  line : Nat
  deriving DecidableEq

/-- `zapcore.Entry`, restricted to the fields the core consults or rewrites
(`Level`, `Message`, `Caller`, `Stack`); levels use zapcore's numbering
(Debug = -1, Info = 0, Warn = 1, Error = 2, ...). -/
structure Entry where
  level : Int
  message : String
  caller : EntryCaller
  stack : String
  deriving DecidableEq

/-- `zapcore.ErrorLevel.Enabled(lvl)`: true iff `lvl` is at or above error
severity (error = 2). -/
def errorLevelEnabled (lvl : Int) : Bool :=
  decide (2 ≤ lvl)

/-- The construction in `WrapCore` (`core.go` lines 77-81): a fresh core with
two newly allocated empty label cells (`newLabels()` twice). -/
def newCore (cfg : DriverConfig) (h : Heap) : Core × Heap :=
  let a1 := h.alloc []
  let a2 := a1.1.alloc []
  (⟨a1.2, a2.2, cfg⟩, a2.1)

/-- `core.extractLabels` (`core.go` lines 200-216): partition the fields,
inserting stripped label bindings into a fresh store (later fields
overwriting earlier ones) and keeping the other fields in order. -/
def extractLabels : List Field → Store × List Field
  | [] => ([], [])
  | f :: fs =>
    let p := extractLabels fs
    if isLabelField f then ((stripLabelsKey f.key, f.str) :: p.1, p.2)
    else (p.1, f :: p.2)

/-- `core.With` (`core.go` lines 90-112): extract labels, allocate a fresh
permanent cell holding a copy of the parent's permanent store overlaid with
the extracted labels, allocate a fresh empty temporary cell, and return the
child together with the non-label fields delegated to the backend. -/
def Core.With (c : Core) (fields : List Field) (h : Heap) : Core × List Field × Heap :=
  let p := extractLabels fields
  let a1 := h.alloc (h.get c.permLabels ++ p.1)
  let a2 := a1.1.alloc []
  (⟨a1.2, a2.2, c.config⟩, p.2, a2.1)

/-- `core.Check` (`core.go` lines 120-126): `enabled` is the embedded
backend's level predicate and the checked entry is the list of registered
cores (`ce.AddCore` appends). -/
def Core.Check (enabled : Int → Bool) (c : Core) (ent : Entry) (ce : List Core) : List Core :=
  if enabled ent.level then ce ++ [c] else ce

/-- `core.allLabels` (`core.go` lines 180-198): a fresh store holding the
permanent bindings overlaid with the temporary ones. -/
def Core.allLabels (c : Core) (h : Heap) : Store :=
  h.get c.permLabels ++ h.get c.tempLabels

/-- `core.Write` lines 135-141: merge the labels extracted from this call's
fields into the temporary cell. -/
def Core.writeTempMerged (c : Core) (fields : List Field) (h : Heap) : Heap :=
  h.hset c.tempLabels (h.get c.tempLabels ++ (extractLabels fields).1)

/-- The merged label store computed at `core.go` line 143:
`allLabels` after this call's labels were merged into the temporary cell. -/
def Core.writeLabels (c : Core) (fields : List Field) (h : Heap) : Store :=
  c.allLabels (c.writeTempMerged fields h)

/-- `core.withSourceLocation` (`core.go` lines 236-249). -/
def withSourceLocation (ent : Entry) (fields : List Field) : List Field :=
  if fields.any (fun f => decide (f.key = sourceKey)) then fields
  else if ent.caller.defined then
    fields ++ [SourceLocation ent.caller.pc ent.caller.file ent.caller.line true]
  else fields

/-- `core.withServiceContext` (`core.go` lines 251-260). -/
def withServiceContext (name version : String) (fields : List Field) : List Field :=
  if fields.any (fun f => decide (f.key = serviceContextKey)) then fields
  else fields ++ [ServiceContext name version]

/-- `core.withErrorReport` (`core.go` lines 262-275). -/
def withErrorReport (ent : Entry) (fields : List Field) : List Field :=
  if fields.any (fun f => decide (f.key = contextKey)) then fields
  else if ent.caller.defined then
    fields ++ [ErrorReport ent.caller.pc ent.caller.file ent.caller.line true]
  else fields

/-- `core.Write` lines 145-147: the configured service context, when a
service name is set. -/
def serviceStage (cfg : DriverConfig) (fields : List Field) : List Field :=
  if cfg.serviceName ≠ "" then withServiceContext cfg.serviceName cfg.serviceVersion fields
  else fields

/-- `core.Write` lines 148-155: the error report at error severity, with the
fallback service name when none is configured. -/
def errorStage (cfg : DriverConfig) (ent : Entry) (fields : List Field) : List Field :=
  if cfg.reportAllErrors && errorLevelEnabled ent.level then
    if cfg.serviceName = "" then
      withServiceContext ("unknown") cfg.serviceVersion (withErrorReport ent fields)
    else withErrorReport ent fields
  else fields

/-- Go's `\s` character class as used by the regexp package. -/
def isGoSpace (c : Char) : Bool :=
  c = ' ' || c = '\t' || c = '\n' || c = '\x0c' || c = '\r'

/-- One line of the multiline replacement
`functionNamePattern.ReplaceAllString(stack, "$1(...)")` (`core.go` lines
129 and 167): a line matching `^(\S+)$` gets `(...)` appended. -/
def rewriteStackLine (l : List Char) : List Char :=
  if !l.isEmpty && l.all (fun c => !isGoSpace c) then l ++ ("(...)").data else l

/-- Split a character sequence into its newline-separated lines (the `(?m)`
line structure of the pattern). -/
def splitLinesChars : List Char → List (List Char)
  | [] => [[]]
  | c :: cs =>
    let r := splitLinesChars cs
    if c = '\n' then [] :: r
    else
      match r with
      | [] => [[c]]
      | g :: gs => (c :: g) :: gs

/-- Rejoin lines with newlines. -/
def joinLinesChars : List (List Char) → List Char
  | [] => []
  | [g] => g
  | g :: gs => g ++ '\n' :: joinLinesChars gs

/-- The whole multiline replacement over the stack text. -/
def rewriteStack (s : String) : String :=
  ⟨joinLinesChars ((splitLinesChars s.data).map rewriteStackLine)⟩

/-- The fixed goroutine-style header appended at `core.go` line 164. -/
def goroutineHeader : String := "\n\ngoroutine 1 [running]:\n"

/-- `core.Write` lines 160-170: rewrite a non-empty stack into the message
and clear it. -/
def stackStage (ent : Entry) : Entry :=
  if ent.stack ≠ "" then
    { ent with
      message := ent.message ++ goroutineHeader ++ rewriteStack ent.stack
      stack := "" }
  else ent

/-- `core.Write` line 157: `tempLabels.reset()`; modelled from the spec for
`labels.reset` of `labels.go` (missing from the sources at hand): discard
all entries of the cell. -/
def Core.writeHeap (c : Core) (fields : List Field) (h : Heap) : Heap :=
  (c.writeTempMerged fields h).hset c.tempLabels []

/-- The field set handed to the backend's write (`core.go` lines 143-155). -/
def Core.writeFields (c : Core) (ent : Entry) (fields : List Field) (h : Heap) : List Field :=
  errorStage c.config ent
    (serviceStage c.config
      (withSourceLocation ent
        (mergeLabelFields (extractLabels fields).2 (c.writeLabels fields h))))

/-- `core.Write` (`core.go` lines 131-173): transform entry and fields,
mutate then reset the temporary cell, and return the wrapped backend's
result on the transformed record, unchanged. -/
def Core.Write {ε : Type} (backendWrite : Entry → List Field → ε) (c : Core)
    (ent : Entry) (fields : List Field) (h : Heap) : ε × Heap :=
  (backendWrite (stackStage ent) (c.writeFields ent fields h), c.writeHeap fields h)

/-- The record (entry and field set) the decorator emits to the backend. -/
def Core.writeRecord (c : Core) (ent : Entry) (fields : List Field) (h : Heap) :
    (Entry × List Field) × Heap :=
  Core.Write Prod.mk c ent fields h

/-- `core.Sync` (`core.go` lines 176-178): delegate verbatim. -/
def Core.Sync {ε : Type} (c : Core) (backendSync : Unit → ε) : ε :=
  backendSync ()

/-! ## Store and heap lemmas -/

theorem Store.lget_cons (p : String × String) (s : Store) (k : String) :
    Store.lget (p :: s) k =
      match Store.lget s k with
      | some v => some v
      | none => if p.1 = k then some p.2 else none := rfl

theorem Store.lget_append (a b : Store) (k : String) :
    Store.lget (a ++ b) k =
      match Store.lget b k with
      | some v => some v
      | none => Store.lget a k := by
  induction a with
  | nil =>
    cases hb : Store.lget b k <;> simp [hb, Store.lget]
  | cons p a ih =>
    rw [List.cons_append, Store.lget_cons, Store.lget_cons, ih]
    cases hb : Store.lget b k <;> simp

theorem Store.lget_eq_none_iff (s : Store) (k : String) :
    Store.lget s k = none ↔ ∀ q ∈ s, q.1 ≠ k := by
  induction s with
  | nil => simp [Store.lget]
  | cons p s ih =>
    rw [Store.lget_cons]
    cases hs : Store.lget s k with
    | some v =>
      constructor
      · intro h
        cases h
      · intro hall
        have h0 : Store.lget s k = none :=
          ih.mpr fun q hq => hall q (List.mem_cons_of_mem p hq)
        rw [hs] at h0
        cases h0
    | none =>
      have hall : ∀ q ∈ s, q.1 ≠ k := ih.mp hs
      constructor
      · intro h q hq
        rcases List.mem_cons.mp hq with rfl | hq'
        · intro hk
          have h' : (if q.1 = k then some q.2 else none) = none := h
          rw [if_pos hk] at h'
          cases h'
        · exact hall q hq'
      · intro h
        show (if p.1 = k then some p.2 else none) = none
        rw [if_neg (h p (List.mem_cons_self p s))]

theorem Store.mem_keys_of_lget_isSome (s : Store) (k : String)
    (h : (Store.lget s k).isSome = true) : k ∈ s.map Prod.fst := by
  by_contra hk
  have hall : ∀ q ∈ s, q.1 ≠ k := fun q hq hqe => hk (List.mem_map.mpr ⟨q, hq, hqe⟩)
  rw [(Store.lget_eq_none_iff s k).mpr hall] at h
  cases h

theorem Store.lget_eq_some_iff (s : Store) (k : String) (v : String)
    (hnd : (s.map Prod.fst).Nodup) :
    Store.lget s k = some v ↔ (k, v) ∈ s := by
  induction s with
  | nil => simp [Store.lget]
  | cons p s ih =>
    rw [List.map_cons, List.nodup_cons] at hnd
    have ih' := ih hnd.2
    rw [Store.lget_cons, List.mem_cons]
    cases hs : Store.lget s k with
    | some w =>
      have hkmem : k ∈ s.map Prod.fst :=
        Store.mem_keys_of_lget_isSome s k (by rw [hs]; rfl)
      constructor
      · intro hw
        have hw' : some w = some v := hw
        injection hw' with hwv
        right
        exact ih'.mp (by rw [hs, hwv])
      · intro hor
        rcases hor with hpe | hmem2
        · exfalso
          have hpk : p.1 = k := by rw [← hpe]
          exact hnd.1 (hpk ▸ hkmem)
        · have h0 : Store.lget s k = some v := ih'.mpr hmem2
          rw [hs] at h0
          exact h0
    | none =>
      have hall : ∀ q ∈ s, q.1 ≠ k := (Store.lget_eq_none_iff s k).mp hs
      by_cases hk : p.1 = k
      · constructor
        · intro hv
          have hv' : (if p.1 = k then some p.2 else none) = some v := hv
          rw [if_pos hk] at hv'
          injection hv' with h2
          left
          exact Prod.ext hk.symm h2.symm
        · intro hor
          rcases hor with hpe | hmem2
          · show (if p.1 = k then some p.2 else none) = some v
            rw [if_pos hk]
            have h2 : p.2 = v := by rw [← hpe]
            rw [h2]
          · exact absurd rfl (hall (k, v) hmem2)
      · constructor
        · intro hv
          have hv' : (if p.1 = k then some p.2 else none) = some v := hv
          rw [if_neg hk] at hv'
          cases hv'
        · intro hor
          rcases hor with hpe | hmem2
          · exfalso
            exact hk (by rw [← hpe])
          · exact absurd rfl (hall (k, v) hmem2)

theorem Store.lget_perm (s t : Store) (hperm : s.Perm t)
    (hnd : (s.map Prod.fst).Nodup) (k : String) :
    Store.lget s k = Store.lget t k := by
  have hndt : (t.map Prod.fst).Nodup := ((hperm.map Prod.fst).nodup_iff).mp hnd
  cases hs : Store.lget s k with
  | some v =>
    exact ((Store.lget_eq_some_iff t k v hndt).mpr
      (hperm.mem_iff.mp ((Store.lget_eq_some_iff s k v hnd).mp hs))).symm
  | none =>
    cases ht : Store.lget t k with
    | some v =>
      have : (k, v) ∈ s := hperm.mem_iff.mpr ((Store.lget_eq_some_iff t k v hndt).mp ht)
      have := (Store.lget_eq_some_iff s k v hnd).mpr this
      rw [hs] at this
      exact absurd this (by simp)
    | none => rfl

theorem Store.lget_congr_append (P T A B : Store) (k : String)
    (hAB : Store.lget A k = Store.lget B k) :
    Store.lget (P ++ (T ++ A)) k = Store.lget (P ++ (T ++ B)) k := by
  rw [Store.lget_append P (T ++ A), Store.lget_append P (T ++ B),
    Store.lget_append T A, Store.lget_append T B, hAB]

theorem Store.hasKey_append_left (a b : Store) (k : String)
    (h : a.hasKey k = true) : (a ++ b).hasKey k = true := by
  unfold Store.hasKey at h ⊢
  rw [Store.lget_append]
  cases hb : Store.lget b k <;> simp_all

theorem Heap.get_set_self : ∀ (h : Heap) (r : Nat) (s : Store),
    r < h.length → Heap.get (h.hset r s) r = s
  | _ :: _, 0, _, _ => rfl
  | _ :: t, r + 1, s, hr => Heap.get_set_self t r s (Nat.lt_of_succ_lt_succ hr)

theorem Heap.get_set_ne : ∀ (h : Heap) (r r' : Nat) (s : Store),
    r' ≠ r → Heap.get (h.hset r s) r' = Heap.get h r'
  | [], _, _, _, _ => rfl
  | _ :: _, 0, 0, _, hne => absurd rfl hne
  | _ :: _, 0, _ + 1, _, _ => rfl
  | _ :: _, _ + 1, 0, _, _ => rfl
  | _ :: t, r + 1, r' + 1, s, hne =>
    Heap.get_set_ne t r r' s (fun hc => hne (by rw [hc]))

theorem Heap.get_append_lt : ∀ (h : Heap) (s : Store) (r : Nat),
    r < h.length → Heap.get (h ++ [s]) r = Heap.get h r
  | _ :: _, _, 0, _ => rfl
  | _ :: t, s, r + 1, hr => Heap.get_append_lt t s r (Nat.lt_of_succ_lt_succ hr)

theorem Heap.get_append_self : ∀ (h : Heap) (s : Store),
    Heap.get (h ++ [s]) h.length = s
  | [], _ => rfl
  | _ :: t, s => Heap.get_append_self t s

theorem Heap.length_hset (h : Heap) (r : Nat) (s : Store) :
    (h.hset r s).length = h.length := by
  unfold Heap.hset
  exact List.length_set h r s

/-! ## extractLabels lemmas -/

theorem extractLabels_fst (fs : List Field) :
    (extractLabels fs).1 =
      (fs.filter isLabelField).map (fun f => (stripLabelsKey f.key, f.str)) := by
  induction fs with
  | nil => rfl
  | cons f fs ih =>
    cases h : isLabelField f <;>
      simp [extractLabels, List.filter_cons, h, ih]

theorem extractLabels_snd (fs : List Field) :
    (extractLabels fs).2 = fs.filter (fun f => !isLabelField f) := by
  induction fs with
  | nil => rfl
  | cons f fs ih =>
    cases h : isLabelField f <;>
      simp [extractLabels, List.filter_cons, h, ih]

/-! ## Pipeline lemmas -/

theorem labelsField_key (s : Store) : (labelsField s).key = "labels" := rfl

theorem SourceLocation_key (pc : Nat) (file : String) (line : Nat) (b : Bool) :
    (SourceLocation pc file line b).key = sourceKey := rfl

theorem ErrorReport_key (pc : Nat) (file : String) (line : Nat) (b : Bool) :
    (ErrorReport pc file line b).key = contextKey := rfl

theorem ServiceContext_key (n v : String) : (ServiceContext n v).key = serviceContextKey := rfl

theorem exists_extend_withSourceLocation (ent : Entry) (l : List Field) :
    ∃ t, withSourceLocation ent l = l ++ t := by
  unfold withSourceLocation
  split
  · exact ⟨[], by simp⟩
  · split
    · exact ⟨_, rfl⟩
    · exact ⟨[], by simp⟩

theorem exists_extend_withServiceContext (n v : String) (l : List Field) :
    ∃ t, withServiceContext n v l = l ++ t := by
  unfold withServiceContext
  split
  · exact ⟨[], by simp⟩
  · exact ⟨_, rfl⟩

theorem exists_extend_withErrorReport (ent : Entry) (l : List Field) :
    ∃ t, withErrorReport ent l = l ++ t := by
  unfold withErrorReport
  split
  · exact ⟨[], by simp⟩
  · split
    · exact ⟨_, rfl⟩
    · exact ⟨[], by simp⟩

theorem exists_extend_serviceStage (cfg : DriverConfig) (l : List Field) :
    ∃ t, serviceStage cfg l = l ++ t := by
  unfold serviceStage
  split
  · exact exists_extend_withServiceContext _ _ l
  · exact ⟨[], by simp⟩

theorem exists_extend_errorStage (cfg : DriverConfig) (ent : Entry) (l : List Field) :
    ∃ t, errorStage cfg ent l = l ++ t := by
  unfold errorStage
  split
  · split
    · obtain ⟨t1, ht1⟩ := exists_extend_withErrorReport ent l
      obtain ⟨t2, ht2⟩ := exists_extend_withServiceContext ("unknown") cfg.serviceVersion
        (withErrorReport ent l)
      exact ⟨t1 ++ t2, by rw [ht2, ht1, List.append_assoc]⟩
    · exact exists_extend_withErrorReport ent l
  · exact ⟨[], by simp⟩

theorem mem_writeFields_of_mem_merged (c : Core) (ent : Entry) (fs : List Field)
    (h : Heap) (x : Field)
    (hx : x ∈ mergeLabelFields (extractLabels fs).2 (c.writeLabels fs h)) :
    x ∈ c.writeFields ent fs h := by
  unfold Core.writeFields
  obtain ⟨t1, ht1⟩ := exists_extend_withSourceLocation ent
    (mergeLabelFields (extractLabels fs).2 (c.writeLabels fs h))
  obtain ⟨t2, ht2⟩ := exists_extend_serviceStage c.config
    (withSourceLocation ent (mergeLabelFields (extractLabels fs).2 (c.writeLabels fs h)))
  obtain ⟨t3, ht3⟩ := exists_extend_errorStage c.config ent
    (serviceStage c.config
      (withSourceLocation ent (mergeLabelFields (extractLabels fs).2 (c.writeLabels fs h))))
  rw [ht3, ht2, ht1]
  exact List.mem_append_left _ (List.mem_append_left _ (List.mem_append_left _ hx))

theorem mem_withSourceLocation_elim (ent : Entry) (l : List Field) (g : Field)
    (hg : g ∈ withSourceLocation ent l) :
    g ∈ l ∨ ∃ pc file line b, g = SourceLocation pc file line b := by
  unfold withSourceLocation at hg
  split at hg
  · exact Or.inl hg
  · split at hg
    · rcases List.mem_append.mp hg with hl | hr
      · exact Or.inl hl
      · exact Or.inr ⟨_, _, _, _, (List.mem_singleton.mp hr)⟩
    · exact Or.inl hg

theorem mem_mergeLabelFields_elim (l : List Field) (s : Store) (g : Field)
    (hg : g ∈ mergeLabelFields l s) : g ∈ l ∨ g = labelsField s := by
  unfold mergeLabelFields at hg
  rcases List.mem_append.mp hg with hl | hr
  · exact Or.inl hl
  · exact Or.inr (List.mem_singleton.mp hr)

theorem filter_withSourceLocation_of_notKey (p : Field → Bool) (ent : Entry)
    (l : List Field) (hp : ∀ pc file line b, p (SourceLocation pc file line b) = false) :
    (withSourceLocation ent l).filter p = l.filter p := by
  unfold withSourceLocation
  split
  · rfl
  · split
    · rw [List.filter_append]
      simp [List.filter_cons, hp]
    · rfl

theorem filter_withServiceContext_of_notKey (p : Field → Bool) (n v : String)
    (l : List Field) (hp : ∀ a b, p (ServiceContext a b) = false) :
    (withServiceContext n v l).filter p = l.filter p := by
  unfold withServiceContext
  split
  · rfl
  · rw [List.filter_append]
    simp [List.filter_cons, hp]

theorem filter_withErrorReport_of_notKey (p : Field → Bool) (ent : Entry)
    (l : List Field) (hp : ∀ pc file line b, p (ErrorReport pc file line b) = false) :
    (withErrorReport ent l).filter p = l.filter p := by
  unfold withErrorReport
  split
  · rfl
  · split
    · rw [List.filter_append]
      simp [List.filter_cons, hp]
    · rfl

theorem filter_serviceStage_of_notKey (p : Field → Bool) (cfg : DriverConfig)
    (l : List Field) (hp : ∀ a b, p (ServiceContext a b) = false) :
    (serviceStage cfg l).filter p = l.filter p := by
  unfold serviceStage
  split
  · exact filter_withServiceContext_of_notKey p _ _ l hp
  · rfl

theorem filter_errorStage_of_notKey (p : Field → Bool) (cfg : DriverConfig)
    (ent : Entry) (l : List Field)
    (hpsc : ∀ a b, p (ServiceContext a b) = false)
    (hper : ∀ pc file line b, p (ErrorReport pc file line b) = false) :
    (errorStage cfg ent l).filter p = l.filter p := by
  unfold errorStage
  split
  · split
    · rw [filter_withServiceContext_of_notKey p _ _ _ hpsc]
      exact filter_withErrorReport_of_notKey p ent l hper
    · exact filter_withErrorReport_of_notKey p ent l hper
  · rfl

theorem filter_mergeLabelFields_of_notKey (p : Field → Bool) (l : List Field)
    (s : Store) (hp : ∀ st, p (labelsField st) = false) :
    (mergeLabelFields l s).filter p = l.filter p := by
  unfold mergeLabelFields
  rw [List.filter_append]
  simp [List.filter_cons, hp]

theorem withSourceLocation_of_present (ent : Entry) (l : List Field)
    (hx : l.any (fun f => decide (f.key = sourceKey)) = true) :
    withSourceLocation ent l = l := by
  unfold withSourceLocation
  rw [if_pos hx]

theorem withSourceLocation_of_absent (ent : Entry) (l : List Field)
    (hx : l.any (fun f => decide (f.key = sourceKey)) = false) :
    withSourceLocation ent l =
      if ent.caller.defined then
        l ++ [SourceLocation ent.caller.pc ent.caller.file ent.caller.line true]
      else l := by
  unfold withSourceLocation
  rw [if_neg (by simp [hx])]

theorem withServiceContext_of_absent (n v : String) (l : List Field)
    (hx : l.any (fun f => decide (f.key = serviceContextKey)) = false) :
    withServiceContext n v l = l ++ [ServiceContext n v] := by
  unfold withServiceContext
  rw [if_neg (by simp [hx])]

theorem withErrorReport_of_absent_defined (ent : Entry) (l : List Field)
    (hx : l.any (fun f => decide (f.key = contextKey)) = false)
    (hc : ent.caller.defined = true) :
    withErrorReport ent l =
      l ++ [ErrorReport ent.caller.pc ent.caller.file ent.caller.line true] := by
  unfold withErrorReport
  rw [if_neg (by simp [hx]), if_pos hc]

theorem serviceStage_of_empty (cfg : DriverConfig) (l : List Field)
    (hsn : cfg.serviceName = "") : serviceStage cfg l = l := by
  unfold serviceStage
  rw [if_neg (by simp [hsn])]

/-! ## Write state lemmas -/

theorem Core.writeLabels_eq (c : Core) (fs : List Field) (h : Heap) (hwf : c.Wf h) :
    c.writeLabels fs h =
      h.get c.permLabels ++ (h.get c.tempLabels ++ (extractLabels fs).1) := by
  unfold Core.writeLabels Core.allLabels Core.writeTempMerged
  rw [Heap.get_set_ne h c.tempLabels c.permLabels _ hwf.2.2,
    Heap.get_set_self h c.tempLabels _ hwf.2.1]

theorem Core.writeHeap_temp (c : Core) (fs : List Field) (h : Heap) (hwf : c.Wf h) :
    (c.writeHeap fs h).get c.tempLabels = [] := by
  unfold Core.writeHeap
  exact Heap.get_set_self _ c.tempLabels []
    (by rw [Core.writeTempMerged, Heap.length_hset]; exact hwf.2.1)

theorem Core.writeHeap_other (c : Core) (fs : List Field) (h : Heap) (r : Nat)
    (hr : r ≠ c.tempLabels) : (c.writeHeap fs h).get r = h.get r := by
  unfold Core.writeHeap Core.writeTempMerged
  rw [Heap.get_set_ne _ c.tempLabels r _ hr, Heap.get_set_ne _ c.tempLabels r _ hr]

theorem Core.writeHeap_length (c : Core) (fs : List Field) (h : Heap) :
    (c.writeHeap fs h).length = h.length := by
  unfold Core.writeHeap Core.writeTempMerged
  rw [Heap.length_hset, Heap.length_hset]

theorem Core.Wf_writeHeap (c : Core) (fs : List Field) (h : Heap) (hwf : c.Wf h) :
    c.Wf (c.writeHeap fs h) := by
  refine ⟨?_, ?_, hwf.2.2⟩ <;> rw [Core.writeHeap_length]
  · exact hwf.1
  · exact hwf.2.1

theorem Core.writeRecord_entry (c : Core) (ent : Entry) (fs : List Field) (h : Heap) :
    (c.writeRecord ent fs h).1.1 = stackStage ent := rfl

theorem Core.writeRecord_fields (c : Core) (ent : Entry) (fs : List Field) (h : Heap) :
    (c.writeRecord ent fs h).1.2 = c.writeFields ent fs h := rfl

theorem Core.writeRecord_heap (c : Core) (ent : Entry) (fs : List Field) (h : Heap) :
    (c.writeRecord ent fs h).2 = c.writeHeap fs h := rfl

theorem Core.With_eq (c : Core) (fields : List Field) (h : Heap) :
    c.With fields h =
      (⟨h.length, h.length + 1, c.config⟩, (extractLabels fields).2,
        (h ++ [h.get c.permLabels ++ (extractLabels fields).1]) ++ [[]]) := by
  unfold Core.With Heap.alloc
  simp [List.length_append]

/-! ## Claims -/

/-- C7: `extractLabels` partitions any input field sequence: every field whose
key carries the `labels.` prefix is removed from the output sequence and
inserted into a freshly created label set under its key with the prefix
stripped, with last-write-wins on duplicate keys within the same call; all
non-label fields are returned unmodified and in their original relative
order.  The function is pure by construction. -/
theorem claim_C7 (fs : List Field) :
    (extractLabels fs).2 = fs.filter (fun f => !isLabelField f)
    ∧ (extractLabels fs).1 =
        (fs.filter isLabelField).map (fun f => (stripLabelsKey f.key, f.str))
    ∧ ∀ (gs : List Field) (f : Field), isLabelField f = true →
        Store.lget (extractLabels (gs ++ [f])).1 (stripLabelsKey f.key) = some f.str := by
  refine ⟨extractLabels_snd fs, extractLabels_fst fs, ?_⟩
  intro gs f hf
  rw [extractLabels_fst, List.filter_append, List.map_append, Store.lget_append]
  have h1 : List.filter isLabelField [f] = [f] := by
    simp [List.filter_cons, hf]
  rw [h1]
  have h2 : Store.lget (List.map (fun f => (stripLabelsKey f.key, f.str)) [f])
      (stripLabelsKey f.key) = some f.str := by
    simp [Store.lget]
  rw [h2]

/-- Witness for C7 at a concrete label field. -/
theorem claim_C7_witness :
    Store.lget (extractLabels ([] ++ [⟨("labels.a"), FieldType.stringType, 0, ("1"),
        Iface.nilIface⟩])).1
      (stripLabelsKey ("labels.a")) = some ("1") :=
  (claim_C7 []).2.2 [] _ (by decide)

/-- C8: `Check` registers the decorator on the checked entry exactly when the
wrapped backend's level predicate accepts the entry's level, and returns the
checked entry unchanged otherwise. -/
theorem claim_C8 (enabled : Int → Bool) (c : Core) (ent : Entry) (ce : List Core) :
    (enabled ent.level = true → Core.Check enabled c ent ce = ce ++ [c])
    ∧ (enabled ent.level = false → Core.Check enabled c ent ce = ce)
    ∧ (c ∈ Core.Check enabled c ent ce ↔ enabled ent.level = true ∨ c ∈ ce) := by
  unfold Core.Check
  refine ⟨fun hl => by rw [if_pos hl], fun hl => by rw [if_neg (by simp [hl])], ?_⟩
  by_cases hl : enabled ent.level = true
  · rw [if_pos hl]
    simp [hl]
  · rw [if_neg hl]
    simp [hl]

/-- Witness for C8 with a disabled level. -/
theorem claim_C8_witness :
    Core.Check (fun _ => false) ⟨0, 1, ⟨false, (""), ("")⟩⟩ ⟨2, ("m"), ⟨false, 0, (""), 0⟩, ("")⟩
      [] = [] :=
  (claim_C8 (fun _ => false) ⟨0, 1, ⟨false, (""), ("")⟩⟩ ⟨2, ("m"), ⟨false, 0, (""), 0⟩, ("")⟩
    []).2.1 rfl

/-- C9: the decorator introduces no error of its own: the result of `Write`
is exactly the wrapped backend's result on the transformed record, and
`Sync` returns exactly the wrapped backend's result; no decorator path
produces a value of the backend's result type. -/
theorem claim_C9 {ε : Type} (backendWrite : Entry → List Field → ε)
    (backendSync : Unit → ε) (c : Core) (ent : Entry) (fs : List Field) (h : Heap) :
    (Core.Write backendWrite c ent fs h).1 =
      backendWrite (c.writeRecord ent fs h).1.1 (c.writeRecord ent fs h).1.2
    ∧ Core.Sync c backendSync = backendSync () :=
  ⟨rfl, rfl⟩

/-- C4: for every write whose entry has a non-empty stack, the emitted entry
has an empty stack and its message is the original message, two newlines, the
fixed goroutine header, and the stack with every all-non-whitespace line
given a `(...)` suffix; the claim's concrete instance is included. -/
theorem claim_C4 :
    (∀ (c : Core) (ent : Entry) (fs : List Field) (h : Heap), ent.stack ≠ "" →
        (c.writeRecord ent fs h).1.1.stack = ""
        ∧ (c.writeRecord ent fs h).1.1.message =
            ent.message ++ goroutineHeader ++ rewriteStack ent.stack)
    ∧ rewriteStack ("main.foo\nmain.bar") = "main.foo(...)\nmain.bar(...)"
    ∧ ∀ (c : Core) (fs : List Field) (h : Heap),
        (c.writeRecord ⟨2, ("boom"), ⟨false, 0, (""), 0⟩, ("main.foo\nmain.bar")⟩
            fs h).1.1.message =
          "boom\n\ngoroutine 1 [running]:\nmain.foo(...)\nmain.bar(...)" := by
  refine ⟨?_, by decide, ?_⟩
  · intro c ent fs h hst
    rw [Core.writeRecord_entry]
    unfold stackStage
    rw [if_pos hst]
    exact ⟨rfl, rfl⟩
  · intro c fs h
    rw [Core.writeRecord_entry]
    decide

/-- Witness for C4 at a concrete entry with a non-empty stack. -/
theorem claim_C4_witness :
    ((⟨0, 1, ⟨false, (""), ("")⟩⟩ : Core).writeRecord
        ⟨2, ("boom"), ⟨false, 0, (""), 0⟩, ("main.foo\nmain.bar")⟩ [] [[], []]).1.1.stack =
      "" :=
  (claim_C4.1 ⟨0, 1, ⟨false, (""), ("")⟩⟩ ⟨2, ("boom"), ⟨false, 0, (""), 0⟩,
    ("main.foo\nmain.bar")⟩ [] [[], []] (by decide)).1

/-- C10 counterexample: two label fields supplied with different non-string
values (distinct `Integer` slots) are extracted to identical label sets, and
the stored value is the (empty) `String` slot, not the supplied value, so the
value stored is not the field's value as supplied. -/
theorem claim_C10_cex :
    extractLabels [⟨("labels.n"), FieldType.int64Type, 1, (""), Iface.nilIface⟩] =
      extractLabels [⟨("labels.n"), FieldType.int64Type, 2, (""), Iface.nilIface⟩]
    ∧ Field.value ⟨("labels.n"), FieldType.int64Type, 1, (""), Iface.nilIface⟩ ≠
      Field.value ⟨("labels.n"), FieldType.int64Type, 2, (""), Iface.nilIface⟩
    ∧ Store.lget (extractLabels
        [⟨("labels.n"), FieldType.int64Type, 1, (""), Iface.nilIface⟩]).1 ("n") =
      some ("") := by
  decide

/-- C10 (amended): label fields are inserted without any validation — every
field whose key carries the `labels.` prefix is stored regardless of its
type — but the stored value is the field's `String` slot as supplied, not
the typed value of a non-string field. -/
theorem claim_C10 (f : Field) (hf : isLabelField f = true) :
    extractLabels [f] = ([(stripLabelsKey f.key, f.str)], []) := by
  simp [extractLabels, hf]

/-- Witness for C10 at a concrete non-string label field. -/
theorem claim_C10_witness :
    extractLabels [⟨("labels.b"), FieldType.int64Type, 7, ("xyz"), Iface.nilIface⟩] =
      ([(stripLabelsKey ("labels.b"), ("xyz"))], []) :=
  claim_C10 _ (by decide)

/-- C3: child derivation does not mutate the parent and copies the permanent
set: the child owns a fresh permanent cell whose content is the parent's
permanent labels overlaid by the labels extracted from the passed fields, a
fresh empty temporary cell and the same configuration; a second derivation
from the parent leaves the first child's cells unchanged. -/
theorem claim_C3 (c : Core) (fs1 fs2 : List Field) (h : Heap) (hwf : c.Wf h) :
    ((c.With fs1 h).2.2.get (c.With fs1 h).1.tempLabels = [])
    ∧ ((c.With fs1 h).1.config = c.config)
    ∧ (∀ k, Store.lget ((c.With fs1 h).2.2.get (c.With fs1 h).1.permLabels) k =
        match Store.lget (extractLabels fs1).1 k with
        | some v => some v
        | none => Store.lget (h.get c.permLabels) k)
    ∧ ((c.With fs1 h).2.2.get c.permLabels = h.get c.permLabels
        ∧ (c.With fs1 h).2.2.get c.tempLabels = h.get c.tempLabels)
    ∧ ((c.With fs1 h).1.permLabels ≠ c.permLabels
        ∧ (c.With fs1 h).1.permLabels ≠ c.tempLabels)
    ∧ ((c.With fs2 (c.With fs1 h).2.2).2.2.get (c.With fs1 h).1.permLabels =
        (c.With fs1 h).2.2.get (c.With fs1 h).1.permLabels
        ∧ (c.With fs2 (c.With fs1 h).2.2).2.2.get (c.With fs1 h).1.tempLabels =
          (c.With fs1 h).2.2.get (c.With fs1 h).1.tempLabels) := by
  have e1 := Core.With_eq c fs1 h
  rw [e1]
  dsimp only
  have hlen1 : (h ++ [h.get c.permLabels ++ (extractLabels fs1).1]).length = h.length + 1 := by
    simp
  have hget1 : Heap.get ((h ++ [h.get c.permLabels ++ (extractLabels fs1).1]) ++ [[]])
      (h.length + 1) = [] := by
    rw [← hlen1]
    exact Heap.get_append_self _ _
  have hgetP : Heap.get ((h ++ [h.get c.permLabels ++ (extractLabels fs1).1]) ++ [[]])
      h.length = h.get c.permLabels ++ (extractLabels fs1).1 := by
    rw [Heap.get_append_lt _ _ h.length (by rw [hlen1]; exact Nat.lt_succ_self _)]
    exact Heap.get_append_self _ _
  refine ⟨hget1, rfl, ?_, ⟨?_, ?_⟩, ⟨(Nat.ne_of_lt hwf.1).symm, (Nat.ne_of_lt hwf.2.1).symm⟩, ?_⟩
  · intro k
    rw [hgetP, Store.lget_append]
  · rw [Heap.get_append_lt _ _ c.permLabels (by rw [hlen1]; exact Nat.lt_succ_of_lt hwf.1),
      Heap.get_append_lt _ _ c.permLabels hwf.1]
  · rw [Heap.get_append_lt _ _ c.tempLabels (by rw [hlen1]; exact Nat.lt_succ_of_lt hwf.2.1),
      Heap.get_append_lt _ _ c.tempLabels hwf.2.1]
  · have e2 := Core.With_eq c fs2
      ((h ++ [h.get c.permLabels ++ (extractLabels fs1).1]) ++ [[]])
    rw [e2]
    dsimp only
    have hlen2 : ((h ++ [h.get c.permLabels ++ (extractLabels fs1).1]) ++ [[]]).length =
        h.length + 2 := by
      simp
    constructor
    · rw [Heap.get_append_lt _ _ h.length (by simp), Heap.get_append_lt _ _ h.length
        (by rw [hlen2]; omega)]
    · rw [Heap.get_append_lt _ _ (h.length + 1) (by simp), Heap.get_append_lt _ _
        (h.length + 1) (by rw [hlen2]; omega)]

/-- Witness for C3 at a concrete parent with one permanent label. -/
theorem claim_C3_witness :
    ((⟨0, 1, ⟨false, (""), ("")⟩⟩ : Core).With
        [⟨("labels.a"), FieldType.stringType, 0, ("1"), Iface.nilIface⟩]
        [[(("p"), ("0"))], []]).2.2.get
      ((⟨0, 1, ⟨false, (""), ("")⟩⟩ : Core).With
        [⟨("labels.a"), FieldType.stringType, 0, ("1"), Iface.nilIface⟩]
        [[(("p"), ("0"))], []]).1.tempLabels = [] :=
  (claim_C3 ⟨0, 1, ⟨false, (""), ("")⟩⟩
    [⟨("labels.a"), FieldType.stringType, 0, ("1"), Iface.nilIface⟩] []
    [[(("p"), ("0"))], []] (by decide)).1

/-- C2: temporary labels never leak across write calls: after a write the
temporary cell is empty and the permanent cell is untouched, so a following
write whose fields carry no labels merges exactly the permanent labels;
permanent labels are present in the merged object of both calls. -/
theorem claim_C2 (c : Core) (e1 : Entry) (fs1 fs2 : List Field) (h : Heap)
    (hwf : c.Wf h) (hfs2 : ∀ f ∈ fs2, isLabelField f = false) :
    ((c.writeRecord e1 fs1 h).2.get c.tempLabels = [])
    ∧ ((c.writeRecord e1 fs1 h).2.get c.permLabels = h.get c.permLabels)
    ∧ (∀ k, Store.lget (c.writeLabels fs2 (c.writeRecord e1 fs1 h).2) k =
        Store.lget (h.get c.permLabels) k)
    ∧ (∀ k, (h.get c.permLabels).hasKey k = true →
        (c.writeLabels fs1 h).hasKey k = true
        ∧ (c.writeLabels fs2 (c.writeRecord e1 fs1 h).2).hasKey k = true) := by
  rw [Core.writeRecord_heap]
  have h2wf := Core.Wf_writeHeap c fs1 h hwf
  have ht := Core.writeHeap_temp c fs1 h hwf
  have hp := Core.writeHeap_other c fs1 h c.permLabels hwf.2.2
  have hex2 : (extractLabels fs2).1 = [] := by
    rw [extractLabels_fst]
    have hnil : fs2.filter isLabelField = [] :=
      List.filter_eq_nil_iff.mpr (fun f hf => by simp [hfs2 f hf])
    rw [hnil]
    rfl
  have h3 : ∀ k, Store.lget (c.writeLabels fs2 (c.writeHeap fs1 h)) k =
      Store.lget (h.get c.permLabels) k := by
    intro k
    rw [Core.writeLabels_eq c fs2 _ h2wf, ht, hp, hex2]
    simp [Store.lget_append, Store.lget]
  refine ⟨ht, hp, h3, ?_⟩
  intro k hk
  constructor
  · rw [Core.writeLabels_eq c fs1 h hwf]
    exact Store.hasKey_append_left _ _ k hk
  · unfold Store.hasKey at hk ⊢
    rw [h3 k]
    exact hk

/-- Witness for C2: a write with one temporary label, then a write with no
label fields. -/
theorem claim_C2_witness :
    ((⟨0, 1, ⟨false, (""), ("")⟩⟩ : Core).writeRecord ⟨0, ("m"), ⟨false, 0, (""), 0⟩, ("")⟩
        [⟨("labels.a"), FieldType.stringType, 0, ("1"), Iface.nilIface⟩]
        [[(("p"), ("0"))], []]).2.get 1 = [] :=
  (claim_C2 ⟨0, 1, ⟨false, (""), ("")⟩⟩ ⟨0, ("m"), ⟨false, 0, (""), 0⟩, ("")⟩
    [⟨("labels.a"), FieldType.stringType, 0, ("1"), Iface.nilIface⟩] []
    [[(("p"), ("0"))], []] (by decide) (by simp)).1

/-- C6: source-location injection is guarded: if the incoming field set
already contains a field with the reserved source-location key, no second
source-location field is appended and the originals pass through unchanged;
otherwise a synthetic source-location field built from the entry's caller is
appended exactly when the caller is defined. -/
theorem claim_C6 (c : Core) (ent : Entry) (fs : List Field) (h : Heap) :
    ((∃ f ∈ fs, f.key = sourceKey) →
        (c.writeRecord ent fs h).1.2.filter (fun f => decide (f.key = sourceKey)) =
          fs.filter (fun f => decide (f.key = sourceKey)))
    ∧ ((∀ f ∈ fs, f.key ≠ sourceKey) →
        (c.writeRecord ent fs h).1.2.filter (fun f => decide (f.key = sourceKey)) =
          if ent.caller.defined then
            [SourceLocation ent.caller.pc ent.caller.file ent.caller.line true]
          else []) := by
  have hpsc : ∀ a b, (fun f => decide (f.key = sourceKey)) (ServiceContext a b) = false := by
    intro a b
    rfl
  have hper : ∀ pc file line b,
      (fun f => decide (f.key = sourceKey)) (ErrorReport pc file line b) = false := by
    intro pc file line b
    rfl
  have hlab : ∀ st, (fun f => decide (f.key = sourceKey)) (labelsField st) = false := by
    intro st
    rfl
  rw [Core.writeRecord_fields]
  unfold Core.writeFields
  rw [filter_errorStage_of_notKey _ c.config ent _ hpsc hper,
    filter_serviceStage_of_notKey _ c.config _ hpsc]
  constructor
  · rintro ⟨f, hf, hfk⟩
    have hfnl : isLabelField f = false := by
      unfold isLabelField
      rw [hfk]
      rfl
    have hfM : f ∈ mergeLabelFields (extractLabels fs).2 (c.writeLabels fs h) := by
      unfold mergeLabelFields
      apply List.mem_append_left
      rw [extractLabels_snd]
      exact List.mem_filter.mpr ⟨hf, by simp [hfnl]⟩
    have hany : (mergeLabelFields (extractLabels fs).2 (c.writeLabels fs h)).any
        (fun f => decide (f.key = sourceKey)) = true :=
      List.any_eq_true.mpr ⟨f, hfM, by simp [hfk]⟩
    rw [withSourceLocation_of_present ent _ hany,
      filter_mergeLabelFields_of_notKey _ _ _ hlab, extractLabels_snd,
      List.filter_filter]
    apply List.filter_congr
    intro g hg
    cases hp : decide (g.key = sourceKey) with
    | false => simp
    | true =>
      have hgk : g.key = sourceKey := of_decide_eq_true hp
      have : isLabelField g = false := by
        unfold isLabelField
        rw [hgk]
        rfl
      simp [this]
  · intro hno
    have hanyM : (mergeLabelFields (extractLabels fs).2 (c.writeLabels fs h)).any
        (fun f => decide (f.key = sourceKey)) = false := by
      apply List.any_eq_false.mpr
      intro g hg
      rcases mem_mergeLabelFields_elim _ _ g hg with hgl | rfl
      · rw [extractLabels_snd] at hgl
        simp [hno g (List.mem_filter.mp hgl).1]
      · simp [hlab]
    have hMnil : (mergeLabelFields (extractLabels fs).2 (c.writeLabels fs h)).filter
        (fun f => decide (f.key = sourceKey)) = [] :=
      List.filter_eq_nil_iff.mpr (fun g hg => by
        have := List.any_eq_false.mp hanyM g hg
        simpa using this)
    rw [withSourceLocation_of_absent ent _ hanyM]
    by_cases hd : ent.caller.defined = true
    · rw [if_pos hd, if_pos hd, List.filter_append, hMnil]
      rfl
    · rw [if_neg hd, if_neg hd]
      exact hMnil

/-- Witness for C6: no user source-location field, defined caller. -/
theorem claim_C6_witness :
    ((⟨0, 1, ⟨false, (""), ("")⟩⟩ : Core).writeRecord ⟨0, ("m"), ⟨true, 7, ("f.go"), 3⟩, ("")⟩
        [] [[], []]).1.2.filter (fun f => decide (f.key = sourceKey)) =
      [SourceLocation 7 ("f.go") 3 true] := by
  have := (claim_C6 ⟨0, 1, ⟨false, (""), ("")⟩⟩ ⟨0, ("m"), ⟨true, 7, ("f.go"), 3⟩, ("")⟩
    [] [[], []]).2 (by simp)
  simpa using this

/-- C5 counterexample: with `reportAllErrors = true`, empty service name and
an error-level entry whose caller is undefined, the emitted field set
contains no error-context field at all, refuting "exactly one" as claimed
for every such write. -/
theorem claim_C5_cex :
    (((⟨0, 1, ⟨true, (""), ("")⟩⟩ : Core).writeRecord ⟨2, ("m"), ⟨false, 0, (""), 0⟩, ("")⟩
        [] [[], []]).1.2.filter (fun f => decide (f.key = contextKey))).length ≠ 1 := by
  decide

/-- C5 (amended): with `reportAllErrors = true`, empty service name, an
entry at or above error severity whose caller is defined, and incoming
fields carrying neither the error-context nor the service-context key, the
emitted field set contains exactly one error-context field (built from the
caller) and exactly one service-context field, whose service name is the
fallback `unknown`. -/
theorem claim_C5 (c : Core) (ent : Entry) (fs : List Field) (h : Heap)
    (hra : c.config.reportAllErrors = true)
    (hsn : c.config.serviceName = "")
    (hlvl : errorLevelEnabled ent.level = true)
    (hcaller : ent.caller.defined = true)
    (hctx : ∀ f ∈ fs, f.key ≠ contextKey)
    (hsvc : ∀ f ∈ fs, f.key ≠ serviceContextKey) :
    (c.writeRecord ent fs h).1.2.filter (fun f => decide (f.key = contextKey)) =
      [ErrorReport ent.caller.pc ent.caller.file ent.caller.line true]
    ∧ (c.writeRecord ent fs h).1.2.filter (fun f => decide (f.key = serviceContextKey)) =
      [ServiceContext ("unknown") c.config.serviceVersion] := by
  have hY : ∀ g ∈ withSourceLocation ent
      (mergeLabelFields (extractLabels fs).2 (c.writeLabels fs h)),
      g.key ≠ contextKey ∧ g.key ≠ serviceContextKey := by
    intro g hg
    rcases mem_withSourceLocation_elim ent _ g hg with hgM | ⟨pc, f0, ln, b, rfl⟩
    · rcases mem_mergeLabelFields_elim _ _ g hgM with hgl | rfl
      · rw [extractLabels_snd] at hgl
        have hgfs : g ∈ fs := (List.mem_filter.mp hgl).1
        exact ⟨hctx g hgfs, hsvc g hgfs⟩
      · exact ⟨by rw [labelsField_key]; decide, by rw [labelsField_key]; decide⟩
    · exact ⟨by rw [SourceLocation_key]; decide, by rw [SourceLocation_key]; decide⟩
  have hanyCtx : (withSourceLocation ent
      (mergeLabelFields (extractLabels fs).2 (c.writeLabels fs h))).any
      (fun f => decide (f.key = contextKey)) = false :=
    List.any_eq_false.mpr (fun g hg => by simp [(hY g hg).1])
  have hout : c.writeFields ent fs h =
      (withSourceLocation ent (mergeLabelFields (extractLabels fs).2 (c.writeLabels fs h))
          ++ [ErrorReport ent.caller.pc ent.caller.file ent.caller.line true])
        ++ [ServiceContext ("unknown") c.config.serviceVersion] := by
    unfold Core.writeFields
    rw [serviceStage_of_empty c.config _ hsn]
    unfold errorStage
    rw [if_pos (by rw [hra, hlvl]; rfl), if_pos hsn,
      withErrorReport_of_absent_defined ent _ hanyCtx hcaller]
    apply withServiceContext_of_absent
    rw [List.any_append]
    have h1 : (withSourceLocation ent
        (mergeLabelFields (extractLabels fs).2 (c.writeLabels fs h))).any
        (fun f => decide (f.key = serviceContextKey)) = false :=
      List.any_eq_false.mpr (fun g hg => by simp [(hY g hg).2])
    rw [h1]
    rfl
  have hfY_ctx : (withSourceLocation ent
      (mergeLabelFields (extractLabels fs).2 (c.writeLabels fs h))).filter
      (fun f => decide (f.key = contextKey)) = [] :=
    List.filter_eq_nil_iff.mpr (fun g hg => by simp [(hY g hg).1])
  have hfY_svc : (withSourceLocation ent
      (mergeLabelFields (extractLabels fs).2 (c.writeLabels fs h))).filter
      (fun f => decide (f.key = serviceContextKey)) = [] :=
    List.filter_eq_nil_iff.mpr (fun g hg => by simp [(hY g hg).2])
  rw [Core.writeRecord_fields, hout]
  constructor
  · rw [List.filter_append, List.filter_append, hfY_ctx]
    rfl
  · rw [List.filter_append, List.filter_append, hfY_svc]
    rfl

/-- Witness for C5 (amended) at a concrete error-level write with a defined
caller. -/
theorem claim_C5_witness :
    ((⟨0, 1, ⟨true, (""), ("v2")⟩⟩ : Core).writeRecord ⟨3, ("m"), ⟨true, 9, ("g.go"), 4⟩, ("")⟩
        [] [[], []]).1.2.filter (fun f => decide (f.key = serviceContextKey)) =
      [ServiceContext ("unknown") ("v2")] :=
  (claim_C5 ⟨0, 1, ⟨true, (""), ("v2")⟩⟩ ⟨3, ("m"), ⟨true, 9, ("g.go"), 4⟩, ("")⟩ [] [[], []]
    rfl rfl (by decide) rfl (by simp) (by simp)).2

/-- C1: the merged label object attached to the emitted record is exactly
the union of the permanent store and the temporary store (the latter
including this call's extracted labels), temporary entries overriding
permanent ones on collision; and for label fields with pairwise distinct
(stripped) keys the merged object is the same for any permutation of the
call's fields. -/
theorem claim_C1 (c : Core) (ent : Entry) (fs fs' : List Field) (h : Heap)
    (hwf : c.Wf h) (hperm : fs.Perm fs')
    (hnd : ((fs.filter isLabelField).map (fun f => stripLabelsKey f.key)).Nodup) :
    labelsField (c.writeLabels fs h) ∈ (c.writeRecord ent fs h).1.2
    ∧ (∀ k, Store.lget (c.writeLabels fs h) k =
        match Store.lget (h.get c.tempLabels ++ (extractLabels fs).1) k with
        | some v => some v
        | none => Store.lget (h.get c.permLabels) k)
    ∧ (∀ k, Store.lget (c.writeLabels fs h) k = Store.lget (c.writeLabels fs' h) k) := by
  refine ⟨?_, ?_, ?_⟩
  · rw [Core.writeRecord_fields]
    apply mem_writeFields_of_mem_merged
    unfold mergeLabelFields
    exact List.mem_append_right _ (List.mem_singleton.mpr rfl)
  · intro k
    rw [Core.writeLabels_eq c fs h hwf, Store.lget_append]
  · intro k
    rw [Core.writeLabels_eq c fs h hwf, Core.writeLabels_eq c fs' h hwf]
    apply Store.lget_congr_append
    rw [extractLabels_fst, extractLabels_fst]
    apply Store.lget_perm
    · exact (hperm.filter isLabelField).map _
    · have hkeys : List.map Prod.fst ((fs.filter isLabelField).map
          (fun f => (stripLabelsKey f.key, f.str))) =
          (fs.filter isLabelField).map (fun f => stripLabelsKey f.key) := by
        rw [List.map_map]
        rfl
      rw [hkeys]
      exact hnd

/-- Witness for C1 at a concrete write with two label fields. -/
theorem claim_C1_witness :
    labelsField ((⟨0, 1, ⟨false, (""), ("")⟩⟩ : Core).writeLabels
        [⟨("labels.a"), FieldType.stringType, 0, ("1"), Iface.nilIface⟩,
          ⟨("labels.b"), FieldType.stringType, 0, ("2"), Iface.nilIface⟩]
        [[(("p"), ("0"))], [(("t"), ("9"))]]) ∈
      ((⟨0, 1, ⟨false, (""), ("")⟩⟩ : Core).writeRecord ⟨0, ("m"), ⟨false, 0, (""), 0⟩, ("")⟩
        [⟨("labels.a"), FieldType.stringType, 0, ("1"), Iface.nilIface⟩,
          ⟨("labels.b"), FieldType.stringType, 0, ("2"), Iface.nilIface⟩]
        [[(("p"), ("0"))], [(("t"), ("9"))]]).1.2 :=
  (claim_C1 ⟨0, 1, ⟨false, (""), ("")⟩⟩ ⟨0, ("m"), ⟨false, 0, (""), 0⟩, ("")⟩
    [⟨("labels.a"), FieldType.stringType, 0, ("1"), Iface.nilIface⟩,
      ⟨("labels.b"), FieldType.stringType, 0, ("2"), Iface.nilIface⟩]
    [⟨("labels.a"), FieldType.stringType, 0, ("1"), Iface.nilIface⟩,
      ⟨("labels.b"), FieldType.stringType, 0, ("2"), Iface.nilIface⟩]
    [[(("p"), ("0"))], [(("t"), ("9"))]] (by decide) (List.Perm.refl _) (by decide)).1

end Zapdriver
